import Mathlib

/-!
Shallow embedding of the departure lifecycle engine of `src/main.py`
(`DepartureBoard.set_departures`, `DepartureBoard._fill_up_to_six`,
`DepartureBoard._refresh_statuses`, `_parse_today_or_tomorrow_time`).

Time is modelled as integer epoch seconds.  The periodic 1 Hz tick is
modelled by an explicit `tick` function taking the wall-clock value `now`;
a run of the board is a fold of `tick` over a list of tick instants.
Widget/styling side effects (label colours, blink timers, badges) are
presentation plumbing and are not part of the model; the per-row status
text, the shared platform-notice text, the emitted cue identifiers, the
visible-window contents and the schedule's `shown` flags are modelled
exactly as the source computes them.
-/

namespace LCDStation

/-- Python/JSON values as they occur in the departures list. -/
inductive JVal where
  | jnull
  | jbool (b : Bool)
  | jint (n : Int)
  | jstr (s : String)
  | jlist (xs : List JVal)
  | jdict (fields : List (String × JVal))

/-- Python truthiness, `bool(x)`. -/
def pyTruthy : JVal → Bool
  | .jnull => false
  | .jbool b => b
  | .jint n => n != 0
  | .jstr s => s != ""
  | .jlist xs => !xs.isEmpty
  | .jdict f => !f.isEmpty

/-- Value of `key` in an association list of dict fields, else `dflt`. -/
def dget (fields : List (String × JVal)) (key : String) (dflt : JVal) : JVal :=
  match fields.find? (fun kv => kv.fst == key) with
  | some kv => kv.snd
  | none => dflt

/-- Python `item.get(key, dflt)`: raises `AttributeError` unless `item` is a dict. -/
def pyGet (item : JVal) (key : String) (dflt : JVal) : Except String JVal :=
  match item with
  | .jdict f => .ok (dget f key dflt)
  | _ => .error "AttributeError"

/-- Whitespace for Python's `str.strip()` / `int()` stripping. -/
def isSpaceChar (c : Char) : Bool :=
  c == ' ' || c == '\t' || c == '\n' || c == '\r'

/-- `str.strip()` on a character list (structural recursion so concrete
inputs evaluate inside the kernel). -/
def trimChars (cs : List Char) : List Char :=
  ((cs.dropWhile isSpaceChar).reverse.dropWhile isSpaceChar).reverse

/-- Decimal digit accumulation; `none` on a non-digit. -/
def digitsValAux : Nat → List Char → Option Nat
  | acc, [] => some acc
  | acc, c :: r =>
    if c.isDigit then digitsValAux (10 * acc + (c.toNat - 48)) r else none

/-- Value of a non-empty all-digit character list. -/
def digitsVal : List Char → Option Nat
  | [] => none
  | cs => digitsValAux 0 cs

/-- Python `int(str)`: strip whitespace, optional sign, decimal digits;
`none` on anything else. -/
def parseIntChars (cs : List Char) : Option Int :=
  match trimChars cs with
  | '-' :: rest => (digitsVal rest).map (fun n => -(n : Int))
  | '+' :: rest => (digitsVal rest).map (fun n => (n : Int))
  | rest => (digitsVal rest).map (fun n => (n : Int))

/-- Python `int(s)` for a string `s`. -/
def pyIntOfString (s : String) : Option Int := parseIntChars s.toList

/-- `s.strip() == t` for Python strings. -/
def pyStripEq (s t : String) : Bool := trimChars s.toList == t.toList

/-- Python `int(x)` on the value kinds that can occur here.
`int` of a bool is 0/1, of an int itself, of a string its parsed value
(`ValueError` if not numeric); other kinds raise `TypeError`. -/
def pyInt : JVal → Except String Int
  | .jbool b => .ok (if b then 1 else 0)
  | .jint n => .ok n
  | .jstr s =>
    match pyIntOfString s with
    | some n => .ok n
    | none => .error "ValueError"
  | _ => .error "TypeError"

/-- The try/except block of `_parse_today_or_tomorrow_time` (main.py:25-28):
split on ":" and parse both parts as ints, defaulting to (0, 0) on any
failure.  Python splits with `maxsplit=1`; the outcomes agree, since a
string with more than one ":" makes the second `int()` fail there and
makes the shape match fail here, and both default to (0, 0). -/
def splitColon : List Char → List (List Char)
  | [] => [[]]
  | c :: rest =>
    let r := splitColon rest
    if c == ':' then [] :: r
    else
      match r with
      | [] => [[c]]
      | g :: gs => (c :: g) :: gs

def parseHourMinute (s : String) : Int × Int :=
  match splitColon s.toList with
  | [hs, ms] =>
    match parseIntChars hs, parseIntChars ms with
    | some h, some m => (h, m)
    | _, _ => (0, 0)
  | _ => (0, 0)

/-- `_parse_today_or_tomorrow_time` (main.py:24-33).  `now.replace(hour, minute)`
is *outside* the try/except, so an out-of-range hour/minute raises
`ValueError` out of the whole load.  "Today at hh:mm" is the midnight of
`now` (epoch-day floor) plus the clock reading; if that instant is more
than 12 hours in the past, a day is added. -/
def parseTodayOrTomorrow (now : Int) (s : String) : Except String Int :=
  let hm := parseHourMinute s
  if 0 ≤ hm.1 ∧ hm.1 ≤ 23 ∧ 0 ≤ hm.2 ∧ hm.2 ≤ 59 then
    let candidate := 86400 * (now.fdiv 86400) + 3600 * hm.1 + 60 * hm.2
    .ok (if candidate < now - 43200 then candidate + 86400 else candidate)
  else
    .error "ValueError"

/-- `_parse_today_or_tomorrow_time` applied to an arbitrary JSON value:
`hhmm.split(":", 1)` raises `AttributeError` unless the value is a string
(the split is inside the try, but `AttributeError`... is also caught by the
bare `except Exception`, giving hour 0 minute 0).  Python's bare `except`
catches the AttributeError too, so a non-string time parses as 00:00. -/
def parseTimeJ (now : Int) (v : JVal) : Except String Int :=
  match v with
  | .jstr s => parseTodayOrTomorrow now s
  | _ => parseTodayOrTomorrow now "00:00"

/-- The per-record data the engine consults after load (read at promotion
time in `_fill_up_to_six`/`_create_row_from_item`; those reads are total,
so they are precomputed here once). -/
structure Rec where
  passThrough : Bool
  terminalHere : Bool
  delaySecs : Int
  platform : String
deriving Repr, DecidableEq

/-- One element of `DepartureBoard._all_items`: `{"raw": item, "time": adj_time,
"shown": False}` (main.py:518).  `idx` is a ghost identity — the position the
item receives in the sorted schedule at load — standing for Python object
identity; it has no behavioural role. -/
structure SchedItem where
  raw : Rec
  time : Int
  shown : Bool
  idx : Nat
deriving Repr, DecidableEq

/-- One iteration of the loop body of `set_departures` (main.py:514-518),
together with the (total) flag reads that `_fill_up_to_six` performs on the
raw dict at promotion time (main.py:616-620). -/
def parseItem (now : Int) (item : JVal) : Except String SchedItem := do
  let tv ← pyGet item "time" (.jstr "00:00")
  let depTime ← parseTimeJ now tv
  let dv ← pyGet item "delay_secs" (.jint 0)
  let delay ← pyInt (if pyTruthy dv then dv else .jint 0)
  let pv ← pyGet item "pass_through" (.jbool false)
  let ty ← pyGet item "type" (.jstr "")
  let plat ← pyGet item "platform" (.jstr "-")
  pure { raw := { passThrough := pyTruthy pv
                , terminalHere := (match ty with
                    | .jstr s => pyStripEq s "回送"
                    | _ => false)
                , delaySecs := delay
                , platform := (match plat with | .jstr s => s | _ => "-") }
       , time := depTime + delay
       , shown := false
       , idx := 0 }

/-- One visible row: the mutable part of an element of `DepartureBoard._model`
(main.py:612-625) plus the row's status label text.  `played` keys are the
dict keys of main.py:623 (`pre77`, `arrival`, `departed`) and the lazily
added `pass` key (absent reads as `False`, main.py:803).  `idx` is the ghost
identity inherited from the promoted `SchedItem`. -/
structure VisEntry where
  raw : Rec
  time : Int
  status : String
  dwellUntil : Option Int
  postDepartAt : Option Int
  playedArrival : Bool
  playedPre77 : Bool
  playedDeparted : Bool
  playedPass : Bool
  lastDelta : Option Int
  idx : Nat
deriving Repr, DecidableEq

/-- Promotion of a schedule item into the window (main.py:609-625).
The freshly created row shows the initial status "定刻" (main.py:536). -/
def mkVis (it : SchedItem) : VisEntry :=
  { raw := it.raw, time := it.time, status := "定刻"
  , dwellUntil := none, postDepartAt := none
  , playedArrival := false, playedPre77 := false
  , playedDeparted := false, playedPass := false
  , lastDelta := none, idx := it.idx }

/-- The configuration thresholds read at main.py:691-696. -/
structure Thresholds where
  approachBefore : Int
  arrivalBefore : Int
  stopBefore : Int
  removeAfter : Int
  passBefore : Int
  passRemoveAfter : Int
deriving Repr, DecidableEq

/-- The default thresholds (main.py:881-888). -/
def defaultTh : Thresholds :=
  { approachBefore := 77, arrivalBefore := 57, stopBefore := 40
  , removeAfter := 10, passBefore := 20, passRemoveAfter := 10 }

/-- Board state: the full schedule `_all_items`, the visible window `_model`,
and the text of the shared platform-notice banner `notice_label`
(empty text = notice inactive). -/
structure Board where
  allItems : List SchedItem
  model : List VisEntry
  notice : String
deriving Repr, DecidableEq

/-- Eligibility test of the fill loop (main.py:603):
`not it["shown"] and it["time"] >= now - timedelta(seconds=60)`. -/
def eligible (now : Int) (it : SchedItem) : Bool :=
  !it.shown && decide (now - 60 ≤ it.time)

/-- One scan of `_all_items` for the first eligible entry (main.py:602-605),
returning it together with the schedule in which it has been marked
`shown = True` (main.py:626). -/
def pickFirst (now : Int) : List SchedItem → Option (SchedItem × List SchedItem)
  | [] => none
  | it :: rest =>
    if eligible now it then some (it, { it with shown := true } :: rest)
    else
      match pickFirst now rest with
      | some (x, rest') => some (x, it :: rest')
      | none => none

/-- The `while len(self.rows) < 6` fill loop (main.py:600-626).  Each
iteration marks one previously unshown item shown, so `_all_items.length`
iterations always suffice; the fuel makes this explicit. -/
def fillAux (now : Int) : Nat → List SchedItem → List VisEntry → List SchedItem × List VisEntry
  | 0, items, model => (items, model)
  | fuel + 1, items, model =>
    if model.length < 6 then
      match pickFirst now items with
      | some (it, items') => fillAux now fuel items' (model ++ [mkVis it])
      | none => (items, model)
    else (items, model)

/-- `DepartureBoard._fill_up_to_six` (main.py:598-626); the badge retagging
and end-of-service banner (main.py:628-653) are presentation only. -/
def fillUpToSix (now : Int) (b : Board) : Board :=
  let r := fillAux now b.allItems.length b.allItems b.model
  { b with allItems := r.1, model := r.2 }

/-- The sort key of `self._all_items.sort(key=lambda x: x["time"])`
(main.py:519). -/
def byTime (a c : SchedItem) : Prop := a.time ≤ c.time

instance : DecidableRel byTime := fun a c => inferInstanceAs (Decidable (a.time ≤ c.time))

instance : IsTotal SchedItem byTime := ⟨fun a c => Int.le_total a.time c.time⟩

instance : IsTrans SchedItem byTime := ⟨fun _ _ _ h1 h2 => le_trans h1 h2⟩

/-- Ghost reindexing: assign each schedule item its position (from `n` on)
as identity.  Python needs nothing here (object identity); the model makes
it explicit. -/
def reindexFrom : Nat → List SchedItem → List SchedItem
  | _, [] => []
  | n, it :: rest => { it with idx := n } :: reindexFrom (n + 1) rest

/-- Ghost reindexing of the whole sorted schedule. -/
def reindex (l : List SchedItem) : List SchedItem := reindexFrom 0 l

/-- `DepartureBoard.set_departures` (main.py:510-528): rebuild `_all_items`
(parsing each record; any exception propagates), sort ascending by
adjusted time, clear the window, fill up to six.  The notice banner is not
touched by a reload. -/
def setDepartures (now : Int) (departures : List JVal) (b : Board) :
    Except String Board := do
  let parsed ← departures.mapM (parseItem now)
  let sorted := parsed.insertionSort byTime
  pure (fillUpToSix now { b with allItems := reindex sorted, model := [] })

/-- `is_delayed` flag (main.py:620): `delay_secs > 0`. -/
def isDelayedE (e : VisEntry) : Bool := decide (0 < e.raw.delaySecs)

/-- The pass-through platform-notice text (main.py:758, 824). -/
def passNotice (e : VisEntry) : String :=
  e.raw.platform ++ "番線に列車が通過します"

/-- The shared three-tier status ladder (used with terminal labels at
main.py:732-751 and with regular labels at main.py:771-790). -/
def ladder (th : Thresholds) (delta : Int) (delayed : Bool)
    (sStop sArr sApp : String) : String :=
  if delta ≤ th.stopBefore then sStop
  else if delta ≤ th.arrivalBefore then sArr
  else if delta ≤ th.approachBefore then sApp
  else if delayed then "遅延" else "定刻"

/-- The status text assigned to a surviving row on one tick
(main.py:731-834, omitting removal which is handled in `refreshEntry`). -/
def newStatus (th : Thresholds) (now : Int) (e : VisEntry) : String :=
  let delta := e.time - now
  if 0 ≤ delta then
    if e.raw.terminalHere then
      ladder th delta (isDelayedE e) "終着 停車中" "終着 到着" "終着 接近"
    else if e.raw.passThrough then
      if delta ≤ th.approachBefore then "接近"
      else if isDelayedE e then "遅延" else "定刻"
    else
      ladder th delta (isDelayedE e) "停車中" "到着" "接近"
  else
    if e.raw.terminalHere then
      if e.dwellUntil.isSome && decide (e.dwellUntil.getD 0 ≤ now) then "発車"
      else "終着 停車中"
    else if e.raw.passThrough then "通過"
    else "発車"

/-- The notice-banner text after a surviving row is processed.  Only the
pass-through branches write it (main.py:758, 770, 824, 830); all other
branches leave the previous text. -/
def newNotice (th : Thresholds) (now : Int) (notice : String) (e : VisEntry) : String :=
  let delta := e.time - now
  if e.raw.terminalHere then notice
  else if e.raw.passThrough then
    if 0 ≤ delta then
      if delta ≤ th.approachBefore then passNotice e else ""
    else
      if -th.passRemoveAfter < delta then passNotice e else ""
  else notice

/-- Arrival cue condition (main.py:793-797): only evaluated in the
`0 <= delta` branch; fires on `last_delta > arrival_sound_before >= delta`
when not yet played. -/
def fireArrival (th : Thresholds) (now : Int) (e : VisEntry) : Bool :=
  let delta := e.time - now
  decide (0 ≤ delta) &&
    (match e.lastDelta with
     | some ld => decide (th.arrivalBefore < ld) && decide (delta ≤ th.arrivalBefore)
     | none => false) &&
    !e.playedArrival

/-- Approach cue condition (main.py:798-801); the emitted identifier is
`"pre30"`. -/
def firePre (th : Thresholds) (now : Int) (e : VisEntry) : Bool :=
  let delta := e.time - now
  decide (0 ≤ delta) &&
    (match e.lastDelta with
     | some ld => decide (th.approachBefore < ld) && decide (delta ≤ th.approachBefore)
     | none => false) &&
    !e.playedPre77

/-- Pass cue condition (main.py:802-806): inside the `0 <= delta` branch and
requiring `last_delta > 0 >= delta`, hence exactly `delta == 0`. -/
def firePass (_th : Thresholds) (now : Int) (e : VisEntry) : Bool :=
  let delta := e.time - now
  e.raw.passThrough && decide (0 ≤ delta) &&
    (match e.lastDelta with
     | some ld => decide (0 < ld) && decide (delta ≤ 0)
     | none => false) &&
    !e.playedPass

/-- Departed cue condition (main.py:835-838): the `delta < 0` branch for a
regular row; the emitted identifier is `"depart"`. -/
def fireDeparted (now : Int) (e : VisEntry) : Bool :=
  let delta := e.time - now
  !e.raw.terminalHere && !e.raw.passThrough && decide (delta < 0) &&
    !e.playedDeparted

/-- The cue identifiers emitted for one surviving row on one tick, in
source order (arrival, pre30, pass inside the `0 <= delta` branch;
depart in the `delta < 0` branch — the conditions are disjoint by the sign
of delta, so one concatenation covers both branches). -/
def cuesOf (th : Thresholds) (now : Int) (e : VisEntry) : List String :=
  (if fireArrival th now e then ["arrival"] else []) ++
  (if firePre th now e then ["pre30"] else []) ++
  (if firePass th now e then ["pass"] else []) ++
  (if fireDeparted now e then ["depart"] else [])

/-- Status assignment, cue firing and `last_delta` update for a row that
survived the removal policy this tick (main.py:731-840).  The `played`
flags are set exactly when their cue fires (each condition reads its own
flag, so the sequential updates of the source commute into one record
update). -/
def statusAndCues (th : Thresholds) (now : Int) (notice : String) (e : VisEntry) :
    VisEntry × String × List String :=
  ({ e with status := newStatus th now e
          , playedArrival := e.playedArrival || fireArrival th now e
          , playedPre77 := e.playedPre77 || firePre th now e
          , playedPass := e.playedPass || firePass th now e
          , playedDeparted := e.playedDeparted || fireDeparted now e
          , lastDelta := some (e.time - now) }
  , newNotice th now notice e
  , cuesOf th now e)

/-- One iteration of the `for idx, entry in enumerate(self._model)` loop of
`_refresh_statuses` (main.py:699-840): dwell bookkeeping, the removal
policy (a removed row contributes no status, notice write or cue —
the source `continue`s before those), then `statusAndCues`.
Returns `none` when the row is removed. -/
def refreshEntry (th : Thresholds) (now : Int) (notice : String) (e0 : VisEntry) :
    Option VisEntry × String × List String :=
  let _passBefore := th.passBefore
  let delta := e0.time - now
  let e1 :=
    if e0.raw.terminalHere && e0.dwellUntil.isNone && decide (delta ≤ 0) then
      { e0 with dwellUntil := some (e0.time + 60) }
    else e0
  if e0.raw.terminalHere && e1.dwellUntil.isSome then
    if e1.dwellUntil.getD 0 ≤ now then
      let e2 := if e1.postDepartAt.isNone then { e1 with postDepartAt := some now } else e1
      if th.removeAfter ≤ now - e2.postDepartAt.getD 0 then (none, notice, [])
      else
        let r := statusAndCues th now notice e2
        (some r.1, r.2.1, r.2.2)
    else
      let r := statusAndCues th now notice e1
      (some r.1, r.2.1, r.2.2)
  else if (e0.raw.passThrough && decide (delta ≤ -th.passRemoveAfter)) ||
          (!e0.raw.passThrough && decide (delta ≤ -th.removeAfter)) then
    (none, notice, [])
  else
    let r := statusAndCues th now notice e1
    (some r.1, r.2.1, r.2.2)

/-- The whole row loop of `_refresh_statuses`: rows processed in window
order, the notice text threaded through (last writer wins), removed rows
dropped, cues concatenated in order. -/
def refreshModel (th : Thresholds) (now : Int) (es : List VisEntry) (notice : String) :
    List VisEntry × String × List String :=
  match es with
  | [] => ([], notice, [])
  | e :: rest =>
    let r := refreshEntry th now notice e
    let rr := refreshModel th now rest r.2.1
    (r.1.toList ++ rr.1, rr.2.1, r.2.2 ++ rr.2.2)

/-- One full tick of `_refresh_statuses` (main.py:685-854): evaluate every
visible row, drop the removed ones, then call `_fill_up_to_six` (both
branches of main.py:850-854 do).  Returns the new board and the emitted
cue identifiers. -/
def tick (th : Thresholds) (now : Int) (b : Board) : Board × List String :=
  let r := refreshModel th now b.model b.notice
  (fillUpToSix now { b with model := r.1, notice := r.2.1 }, r.2.2)

/-- The board after one tick, discarding the cue list. -/
def tickB (th : Thresholds) (now : Int) (b : Board) : Board :=
  (tick th now b).1

/-- A run of the 1 Hz timer: fold `tick` over the tick instants. -/
def runTicks (th : Thresholds) (b : Board) (nows : List Int) : Board :=
  nows.foldl (fun b n => tickB th n b) b

/-- A single visible row ticked repeatedly on its own (the row's lifecycle
inside the window): once removed it stays gone.  Collects all cues the row
ever emits. -/
def entryRun (th : Thresholds) : List Int → VisEntry → Option VisEntry × List String
  | [], e => (some e, [])
  | n :: ns, e =>
    match refreshEntry th n "" e with
    | (none, _, evs) => (none, evs)
    | (some e', _, evs) =>
      let r := entryRun th ns e'
      (r.1, evs ++ r.2)

/-! ### Helper lemmas: the fill loop -/

/-- Is some schedule item with ghost identity `j` marked shown? -/
def shownAny (items : List SchedItem) (j : Nat) : Bool :=
  items.any (fun it => it.idx == j && it.shown)

/-! ### Board-level invariants -/

/-- The ghost identities currently in the visible window. -/
def modelIdxs (b : Board) : List Nat := b.model.map (fun v => v.idx)

/-- Whether the schedule item with ghost identity `i` is marked shown. -/
def shownAt (b : Board) (i : Nat) : Bool := shownAny b.allItems i

/-- The window/schedule well-formedness invariant: at most six rows, ghost
identities are distinct, and every visible row's schedule item is marked
shown. -/
def Inv (b : Board) : Prop :=
  b.model.length ≤ 6 ∧
  (b.allItems.map (fun it => it.idx)).Nodup ∧
  (modelIdxs b).Nodup ∧
  ∀ i ∈ modelIdxs b, shownAt b i = true

/-- The per-item sorting key of the model: a schedule in ascending
effective-time order. -/
def timesSorted (items : List SchedItem) : Prop :=
  (items.map (fun it => it.time)).Sorted (fun a c => a ≤ c)

/-- Concrete two-record load used to witness C1. -/
def c1Deps : List JVal :=
  [JVal.jdict [("time", JVal.jstr "08:00")], JVal.jdict [("time", JVal.jstr "08:05")]]

/-- The board produced by loading `c1Deps` at epoch second 0. -/
def c1Board : Board :=
  (setDepartures 0 c1Deps { allItems := [], model := [], notice := "" }).toOption.getD
    { allItems := [], model := [], notice := "" }

/-- Concrete board witnessing C2: three eligible future entries at
effective times 100 < 200 < 300, window empty. -/
def c2Board : Board :=
  { allItems :=
      [ { raw := { passThrough := false, terminalHere := false, delaySecs := 0, platform := "1" }
        , time := 100, shown := false, idx := 0 }
      , { raw := { passThrough := false, terminalHere := false, delaySecs := 0, platform := "1" }
        , time := 200, shown := false, idx := 1 }
      , { raw := { passThrough := false, terminalHere := false, delaySecs := 0, platform := "1" }
        , time := 300, shown := false, idx := 2 } ]
  , model := [], notice := "" }

/-- Scenario A's record: regular departure at 08:00 (epoch second 28800),
no delay, already promoted into the window. -/
def c6Entry : VisEntry :=
  mkVis { raw := { passThrough := false, terminalHere := false, delaySecs := 0, platform := "1" }
        , time := 28800, shown := true, idx := 0 }

/-- Scenario C's record: terminal-here (`type == "回送"`) at 09:00
(epoch second 32400). -/
def c4Entry : VisEntry :=
  mkVis { raw := { passThrough := false, terminalHere := true, delaySecs := 0, platform := "2" }
        , time := 32400, shown := true, idx := 0 }

/-- C3 counterexample entry: a regular record at epoch second 1000 whose
previous tick saw delta 58; the next tick happens at 1001 (delta -1). -/
def c3Entry : VisEntry :=
  { mkVis { raw := { passThrough := false, terminalHere := false, delaySecs := 0, platform := "1" }
          , time := 1000, shown := true, idx := 0 } with lastDelta := some 58 }

/-- A pass-through row at its exact departure second, previous delta 1. -/
def c3PassEntry : VisEntry :=
  { mkVis { raw := { passThrough := true, terminalHere := false, delaySecs := 0, platform := "4" }
          , time := 1000, shown := true, idx := 0 } with lastDelta := some 1 }

/-- Board with a just-departed regular row (previous delta 58, tick at
delta -1): the tick emits the cue identifier "depart". -/
def c7Board : Board := { allItems := [], model := [c3Entry], notice := "" }

/-- Board with a regular row crossing the approach threshold (previous
delta 78, tick at delta 77): the tick emits the cue identifier "pre30". -/
def c7bEntry : VisEntry :=
  { mkVis { raw := { passThrough := false, terminalHere := false, delaySecs := 0, platform := "1" }
          , time := 1077, shown := true, idx := 0 } with lastDelta := some 78 }

def c7bBoard : Board := { allItems := [], model := [c7bEntry], notice := "" }

/-- A pass-through row crossing the arrival threshold with delta still
positive (previous delta 58, tick at delta 50). -/
def c8Entry : VisEntry :=
  { mkVis { raw := { passThrough := true, terminalHere := false, delaySecs := 0, platform := "4" }
          , time := 1050, shown := true, idx := 0 } with lastDelta := some 58 }

/-- Scenario D's pass-through record at 10:00 (epoch second 36000),
platform 3, alone in the window. -/
def c5Entry : VisEntry :=
  mkVis { raw := { passThrough := true, terminalHere := false, delaySecs := 0, platform := "3" }
        , time := 36000, shown := true, idx := 0 }

def c5Board : Board := { allItems := [], model := [c5Entry], notice := "" }

/-- A `delay_secs` value `int(v or 0)` accepts without raising: anything
falsy (treated as 0), bools, ints, and numeric strings. -/
def delayValOK : JVal → Bool
  | .jnull => true
  | .jbool _ => true
  | .jint _ => true
  | .jstr s => (s == "") || (pyIntOfString s).isSome
  | .jlist xs => xs.isEmpty
  | .jdict f => f.isEmpty

/-- A `time` value parses without raising: a string whose hour/minute are
in range (anything unparseable falls back to 00:00 inside the caught
block), or a non-string (caught, parsed as 00:00). -/
def timeValOK : JVal → Bool
  | .jstr s =>
    decide (0 ≤ (parseHourMinute s).1 ∧ (parseHourMinute s).1 ≤ 23 ∧
      0 ≤ (parseHourMinute s).2 ∧ (parseHourMinute s).2 ≤ 59)
  | _ => true

/-- A record `set_departures` loads without raising. -/
def recordOK : JVal → Bool
  | .jdict f => timeValOK (dget f "time" (.jstr "00:00")) &&
      delayValOK (dget f "delay_secs" (.jint 0))
  | _ => false

/-! ### Helper lemmas: one row, one tick -/

/-- A surviving row keeps its identity, record and time; its `played` flags
are the old flags or-ed with this tick's firings; its `last_delta` becomes
this tick's delta; and the cues it emits are exactly `cuesOf`. -/
lemma refreshEntry_some_eq (th : Thresholds) (now : Int) (notice : String)
    (e e' : VisEntry) (h : (refreshEntry th now notice e).1 = some e') :
    e'.idx = e.idx ∧ e'.time = e.time ∧ e'.raw = e.raw ∧
    e'.playedArrival = (e.playedArrival || fireArrival th now e) ∧
    e'.playedPre77 = (e.playedPre77 || firePre th now e) ∧
    e'.playedPass = (e.playedPass || firePass th now e) ∧
    e'.playedDeparted = (e.playedDeparted || fireDeparted now e) ∧
    e'.lastDelta = some (e.time - now) ∧
    (refreshEntry th now notice e).2.2 = cuesOf th now e := by
  unfold refreshEntry at h ⊢
  dsimp only at h ⊢
  split_ifs at h ⊢ <;>
    first
      | exact Option.noConfusion h
      | (injection h with h; subst h;
         exact ⟨rfl, rfl, rfl, rfl, rfl, rfl, rfl, rfl, rfl⟩)

/-- A removed row emits nothing and leaves the notice alone. -/
lemma refreshEntry_none_eq (th : Thresholds) (now : Int) (notice : String)
    (e : VisEntry) (h : (refreshEntry th now notice e).1 = none) :
    (refreshEntry th now notice e).2.2 = [] ∧
    (refreshEntry th now notice e).2.1 = notice := by
  unfold refreshEntry at h ⊢
  dsimp only at h ⊢
  split_ifs at h ⊢ <;> first | exact Option.noConfusion h | exact ⟨rfl, rfl⟩

lemma mem_cuesOf_arrival (th : Thresholds) (now : Int) (e : VisEntry) :
    "arrival" ∈ cuesOf th now e ↔ fireArrival th now e = true := by
  unfold cuesOf
  split_ifs <;> simp_all

lemma mem_cuesOf_pre30 (th : Thresholds) (now : Int) (e : VisEntry) :
    "pre30" ∈ cuesOf th now e ↔ firePre th now e = true := by
  unfold cuesOf
  split_ifs <;> simp_all

lemma mem_cuesOf_pass (th : Thresholds) (now : Int) (e : VisEntry) :
    "pass" ∈ cuesOf th now e ↔ firePass th now e = true := by
  unfold cuesOf
  split_ifs <;> simp_all

lemma mem_cuesOf_depart (th : Thresholds) (now : Int) (e : VisEntry) :
    "depart" ∈ cuesOf th now e ↔ fireDeparted now e = true := by
  unfold cuesOf
  split_ifs <;> simp_all

lemma mem_cuesOf (th : Thresholds) (now : Int) (e : VisEntry) (ev : String)
    (h : ev ∈ cuesOf th now e) :
    ev = "arrival" ∨ ev = "pre30" ∨ ev = "pass" ∨ ev = "depart" := by
  unfold cuesOf at h
  split_ifs at h <;> simp_all <;> tauto

lemma count_cuesOf_le_one (th : Thresholds) (now : Int) (e : VisEntry) (ev : String) :
    (cuesOf th now e).count ev ≤ 1 := by
  have h : (cuesOf th now e).Nodup := by
    unfold cuesOf
    split_ifs <;> decide
  exact List.nodup_iff_count_le_one.mp h ev

/-- Generic one-shot argument: a cue guarded by a `played` flag that is set
on firing and monotone on survival is emitted at most once over any run of
a row, and never if the flag is already set. -/
lemma entryRun_once (th : Thresholds) (flag : VisEntry → Bool)
    (fireF : Int → VisEntry → Bool) (cue : String)
    (hsome : ∀ now n e e', (refreshEntry th now n e).1 = some e' →
      flag e' = (flag e || fireF now e))
    (hcue : ∀ now e, cue ∈ cuesOf th now e ↔ fireF now e = true)
    (hflag : ∀ now e, fireF now e = true → flag e = false) :
    ∀ nows e,
      (flag e = true → (entryRun th nows e).2.count cue = 0) ∧
      (entryRun th nows e).2.count cue ≤ 1 := by
  intro nows
  induction nows with
  | nil => intro e; simp [entryRun]
  | cons n ns ih =>
    intro e
    rcases hr : refreshEntry th n "" e with ⟨oe, nt, evs⟩
    cases oe with
    | none =>
      have hevs : evs = [] := by
        have := (refreshEntry_none_eq th n "" e (by rw [hr])).1
        rw [hr] at this
        exact this
      subst hevs
      constructor
      · intro _; simp [entryRun, hr]
      · simp [entryRun, hr]
    | some e' =>
      have hflag' : flag e' = (flag e || fireF n e) :=
        hsome n "" e e' (by rw [hr])
      have hevs : evs = cuesOf th n e := by
        have := (refreshEntry_some_eq th n "" e e' (by rw [hr])).2.2.2.2.2.2.2.2
        rw [hr] at this
        exact this
      have hrun : entryRun th (n :: ns) e = ((entryRun th ns e').1, evs ++ (entryRun th ns e').2) := by
        simp [entryRun, hr]
      constructor
      · intro hfe
        have hnot : cue ∉ evs := by
          intro hc
          rw [hevs] at hc
          have := hflag n e ((hcue n e).mp hc)
          rw [hfe] at this
          exact Bool.noConfusion this
        have h0 : evs.count cue = 0 := List.count_eq_zero.mpr hnot
        have hrest : (entryRun th ns e').2.count cue = 0 :=
          (ih e').1 (by rw [hflag', hfe]; rfl)
        rw [hrun]
        simp [List.count_append, h0, hrest]
      · by_cases hc : cue ∈ evs
        · have hfire : fireF n e = true := (hcue n e).mp (by rwa [hevs] at hc)
          have hrest : (entryRun th ns e').2.count cue = 0 :=
            (ih e').1 (by rw [hflag', hfire]; simp)
          have h1 : evs.count cue ≤ 1 := by
            rw [hevs]; exact count_cuesOf_le_one th n e cue
          rw [hrun]
          simp [List.count_append, hrest]
          omega
        · have h0 : evs.count cue = 0 := List.count_eq_zero.mpr hc
          rw [hrun]
          simp [List.count_append, h0]
          exact (ih e').2

lemma fireArrival_flag (now : Int) (th : Thresholds) (e : VisEntry)
    (h : fireArrival th now e = true) : e.playedArrival = false := by
  rcases hA : e.playedArrival
  · rfl
  · unfold fireArrival at h
    rw [hA] at h
    simp at h

lemma firePre_flag (now : Int) (th : Thresholds) (e : VisEntry)
    (h : firePre th now e = true) : e.playedPre77 = false := by
  rcases hA : e.playedPre77
  · rfl
  · unfold firePre at h
    rw [hA] at h
    simp at h

lemma firePass_flag (now : Int) (th : Thresholds) (e : VisEntry)
    (h : firePass th now e = true) : e.playedPass = false := by
  rcases hA : e.playedPass
  · rfl
  · unfold firePass at h
    rw [hA] at h
    simp at h

lemma fireDeparted_flag (now : Int) (e : VisEntry)
    (h : fireDeparted now e = true) : e.playedDeparted = false := by
  rcases hA : e.playedDeparted
  · rfl
  · unfold fireDeparted at h
    rw [hA] at h
    simp at h

lemma eligible_shown (now : Int) (x : SchedItem) (h : eligible now x = true) :
    x.shown = false := by
  rcases hs : x.shown
  · rfl
  · unfold eligible at h
    rw [hs] at h
    simp at h

/-- A successful scan splits the schedule at the first eligible item. -/
lemma pickFirst_decomp (now : Int) :
    ∀ (items : List SchedItem) (x : SchedItem) (items' : List SchedItem),
      pickFirst now items = some (x, items') →
      ∃ pre suf, items = pre ++ x :: suf ∧
        items' = pre ++ ({ x with shown := true }) :: suf ∧
        eligible now x = true ∧ ∀ y ∈ pre, eligible now y = false := by
  intro items
  induction items with
  | nil => intro x items' h; simp [pickFirst] at h
  | cons it rest ih =>
    intro x items' h
    by_cases he : eligible now it
    · simp only [pickFirst, if_pos he, Option.some.injEq, Prod.mk.injEq] at h
      obtain ⟨h1, h2⟩ := h
      subst h1
      subst h2
      exact ⟨[], rest, rfl, rfl, he, by simp⟩
    · simp only [pickFirst, if_neg he] at h
      cases hr : pickFirst now rest with
      | none => rw [hr] at h; exact Option.noConfusion h
      | some p =>
        rcases p with ⟨y, rest'⟩
        rw [hr] at h
        simp only [Option.some.injEq, Prod.mk.injEq] at h
        obtain ⟨h1, h2⟩ := h
        subst h1
        subst h2
        obtain ⟨pre, suf, e1, e2, e3, e4⟩ := ih y rest' hr
        refine ⟨it :: pre, suf, by simp [e1], by simp [e2], e3, ?_⟩
        intro z hz
        rcases List.mem_cons.mp hz with hz | hz
        · subst hz; exact Bool.eq_false_iff.mpr he
        · exact e4 z hz

lemma pickFirst_map_idx (now : Int) (items items' : List SchedItem) (x : SchedItem)
    (h : pickFirst now items = some (x, items')) :
    items'.map (fun it => it.idx) = items.map (fun it => it.idx) := by
  obtain ⟨pre, suf, e1, e2, _, _⟩ := pickFirst_decomp now items x items' h
  subst e1
  subst e2
  simp

lemma pickFirst_map_time (now : Int) (items items' : List SchedItem) (x : SchedItem)
    (h : pickFirst now items = some (x, items')) :
    items'.map (fun it => it.time) = items.map (fun it => it.time) := by
  obtain ⟨pre, suf, e1, e2, _, _⟩ := pickFirst_decomp now items x items' h
  subst e1
  subst e2
  simp

lemma pickFirst_shownAny_mono (now : Int) (items items' : List SchedItem) (x : SchedItem)
    (h : pickFirst now items = some (x, items')) (j : Nat)
    (hs : shownAny items j = true) : shownAny items' j = true := by
  obtain ⟨pre, suf, e1, e2, he, _⟩ := pickFirst_decomp now items x items' h
  subst e1
  subst e2
  have hxs : x.shown = false := eligible_shown now x he
  simp only [shownAny, List.any_append, List.any_cons, Bool.or_eq_true] at hs ⊢
  rcases hs with hs | hs | hs
  · exact Or.inl hs
  · rw [hxs] at hs
    simp at hs
  · exact Or.inr (Or.inr hs)

lemma pickFirst_marked (now : Int) (items items' : List SchedItem) (x : SchedItem)
    (h : pickFirst now items = some (x, items')) :
    shownAny items' x.idx = true := by
  obtain ⟨pre, suf, _, e2, _, _⟩ := pickFirst_decomp now items x items' h
  subst e2
  simp [shownAny, List.any_append, List.any_cons]

lemma pickFirst_filter (now : Int) (items items' : List SchedItem) (x : SchedItem)
    (h : pickFirst now items = some (x, items')) :
    items.filter (eligible now) = x :: items'.filter (eligible now) := by
  obtain ⟨pre, suf, e1, e2, he, hpre⟩ := pickFirst_decomp now items x items' h
  subst e1
  subst e2
  have hp : pre.filter (eligible now) = [] :=
    List.filter_eq_nil_iff.mpr (fun y hy => by simp [hpre y hy])
  have hx : eligible now { x with shown := true } = false := by
    simp [eligible]
  simp [List.filter_append, hp, he, hx]

lemma pickFirst_none (now : Int) :
    ∀ (items : List SchedItem), pickFirst now items = none →
      items.filter (eligible now) = [] := by
  intro items
  induction items with
  | nil => intro _; rfl
  | cons it rest ih =>
    intro h
    by_cases he : eligible now it
    · simp only [pickFirst, if_pos he] at h
      exact Option.noConfusion h
    · simp only [pickFirst, if_neg he] at h
      cases hr : pickFirst now rest with
      | none => simp [List.filter_cons, he, ih hr]
      | some p => rw [hr] at h; exact Option.noConfusion h

lemma pickFirst_unshown (now : Int) (items items' : List SchedItem) (x : SchedItem)
    (h : pickFirst now items = some (x, items'))
    (hnd : (items.map (fun it => it.idx)).Nodup) :
    shownAny items x.idx = false := by
  obtain ⟨pre, suf, e1, _, he, _⟩ := pickFirst_decomp now items x items' h
  have hxmem : x ∈ items := by rw [e1]; simp
  rcases hs : shownAny items x.idx
  · rfl
  · exfalso
    obtain ⟨it, hit, hp⟩ := List.any_eq_true.mp hs
    rw [Bool.and_eq_true, beq_iff_eq] at hp
    have : it = x := List.inj_on_of_nodup_map hnd hit hxmem hp.1
    subst this
    rw [eligible_shown now it he] at hp
    exact Bool.noConfusion hp.2

lemma fillAux_len (now : Int) :
    ∀ (fuel : Nat) (items : List SchedItem) (model : List VisEntry),
      model.length ≤ 6 → (fillAux now fuel items model).2.length ≤ 6 := by
  intro fuel
  induction fuel with
  | zero => intro items model h; exact h
  | succ n ih =>
    intro items model h
    by_cases hl : model.length < 6
    · simp only [fillAux, if_pos hl]
      cases hp : pickFirst now items with
      | none => exact h
      | some p =>
        rcases p with ⟨x, items'⟩
        exact ih items' (model ++ [mkVis x]) (by simp; omega)
    · simp only [fillAux, if_neg hl]
      exact h

lemma fillAux_map_idx (now : Int) :
    ∀ (fuel : Nat) (items : List SchedItem) (model : List VisEntry),
      (fillAux now fuel items model).1.map (fun it => it.idx) =
        items.map (fun it => it.idx) := by
  intro fuel
  induction fuel with
  | zero => intro items model; rfl
  | succ n ih =>
    intro items model
    by_cases hl : model.length < 6
    · simp only [fillAux, if_pos hl]
      cases hp : pickFirst now items with
      | none => rfl
      | some p =>
        rcases p with ⟨x, items'⟩
        rw [ih items' (model ++ [mkVis x])]
        exact pickFirst_map_idx now items items' x hp
    · simp only [fillAux, if_neg hl]

lemma fillAux_map_time (now : Int) :
    ∀ (fuel : Nat) (items : List SchedItem) (model : List VisEntry),
      (fillAux now fuel items model).1.map (fun it => it.time) =
        items.map (fun it => it.time) := by
  intro fuel
  induction fuel with
  | zero => intro items model; rfl
  | succ n ih =>
    intro items model
    by_cases hl : model.length < 6
    · simp only [fillAux, if_pos hl]
      cases hp : pickFirst now items with
      | none => rfl
      | some p =>
        rcases p with ⟨x, items'⟩
        rw [ih items' (model ++ [mkVis x])]
        exact pickFirst_map_time now items items' x hp
    · simp only [fillAux, if_neg hl]

lemma fillAux_shownAny_mono (now : Int) :
    ∀ (fuel : Nat) (items : List SchedItem) (model : List VisEntry) (j : Nat),
      shownAny items j = true →
      shownAny (fillAux now fuel items model).1 j = true := by
  intro fuel
  induction fuel with
  | zero => intro items model j h; exact h
  | succ n ih =>
    intro items model j h
    by_cases hl : model.length < 6
    · simp only [fillAux, if_pos hl]
      cases hp : pickFirst now items with
      | none => exact h
      | some p =>
        rcases p with ⟨x, items'⟩
        exact ih items' (model ++ [mkVis x]) j
          (pickFirst_shownAny_mono now items items' x hp j h)
    · simp only [fillAux, if_neg hl]
      exact h

/-- The fill loop appends exactly the first `6 - |window|` eligible
schedule entries, in schedule order, promoted through `mkVis`. -/
lemma fillAux_spec (now : Int) :
    ∀ (fuel : Nat) (items : List SchedItem) (model : List VisEntry),
      (items.filter (eligible now)).length ≤ fuel →
      (fillAux now fuel items model).2 =
        model ++ ((items.filter (eligible now)).take (6 - model.length)).map mkVis := by
  intro fuel
  induction fuel with
  | zero =>
    intro items model h
    have : items.filter (eligible now) = [] := List.length_eq_zero.mp (Nat.le_zero.mp h)
    simp [fillAux, this]
  | succ n ih =>
    intro items model h
    by_cases hl : model.length < 6
    · simp only [fillAux, if_pos hl]
      cases hp : pickFirst now items with
      | none =>
        have : items.filter (eligible now) = [] := pickFirst_none now items hp
        simp [this]
      | some p =>
        rcases p with ⟨x, items'⟩
        have hf : items.filter (eligible now) = x :: items'.filter (eligible now) :=
          pickFirst_filter now items items' x hp
        have hlen : (items'.filter (eligible now)).length ≤ n := by
          have := h
          rw [hf] at this
          simpa using this
        rw [ih items' (model ++ [mkVis x]) hlen, hf]
        have hk : 6 - model.length = (6 - (model.length + 1)) + 1 := by omega
        rw [hk, List.take_succ_cons]
        simp
    · simp only [fillAux, if_neg hl]
      have : 6 - model.length = 0 := by omega
      simp [this]

lemma fillAux_model_shown (now : Int) :
    ∀ (fuel : Nat) (items : List SchedItem) (model : List VisEntry),
      (∀ v ∈ model, shownAny items v.idx = true) →
      ∀ v ∈ (fillAux now fuel items model).2,
        shownAny (fillAux now fuel items model).1 v.idx = true := by
  intro fuel
  induction fuel with
  | zero => intro items model h v hv; exact h v hv
  | succ n ih =>
    intro items model h v hv
    by_cases hl : model.length < 6
    · cases hp : pickFirst now items with
      | none =>
        simp only [fillAux, if_pos hl, hp] at hv ⊢
        exact h v hv
      | some p =>
        rcases p with ⟨x, items'⟩
        simp only [fillAux, if_pos hl, hp] at hv ⊢
        refine ih items' (model ++ [mkVis x]) ?_ v hv
        intro w hw
        rcases List.mem_append.mp hw with hw | hw
        · exact pickFirst_shownAny_mono now items items' x hp w.idx (h w hw)
        · have : w = mkVis x := by simpa using hw
          subst this
          exact pickFirst_marked now items items' x hp
    · simp only [fillAux, if_neg hl] at hv ⊢
      exact h v hv

/-- A row that the fill loop adds comes from a schedule item that was not
yet shown (given distinct ghost identities). -/
lemma fillAux_new_unshown (now : Int) :
    ∀ (fuel : Nat) (items : List SchedItem) (model : List VisEntry),
      (items.map (fun it => it.idx)).Nodup →
      ∀ v ∈ (fillAux now fuel items model).2, v ∉ model →
        shownAny items v.idx = false := by
  intro fuel
  induction fuel with
  | zero => intro items model _ v hv hnm; exact absurd hv hnm
  | succ n ih =>
    intro items model hnd v hv hnm
    by_cases hl : model.length < 6
    · cases hp : pickFirst now items with
      | none =>
        simp only [fillAux, if_pos hl, hp] at hv
        exact absurd hv hnm
      | some p =>
        rcases p with ⟨x, items'⟩
        simp only [fillAux, if_pos hl, hp] at hv
        by_cases hvm : v ∈ model ++ [mkVis x]
        · have : v = mkVis x := by
            rcases List.mem_append.mp hvm with hw | hw
            · exact absurd hw hnm
            · simpa using hw
          subst this
          exact pickFirst_unshown now items items' x hp hnd
        · have hnd' : (items'.map (fun it => it.idx)).Nodup := by
            rw [pickFirst_map_idx now items items' x hp]
            exact hnd
          have hfalse : shownAny items' v.idx = false :=
            ih items' (model ++ [mkVis x]) hnd' v hv hvm
          rcases hs : shownAny items v.idx
          · rfl
          · exfalso
            rw [pickFirst_shownAny_mono now items items' x hp v.idx hs] at hfalse
            exact Bool.noConfusion hfalse
    · simp only [fillAux, if_neg hl] at hv
      exact absurd hv hnm

/-! ### Helper lemmas: the whole tick -/

lemma refreshModel_cons (th : Thresholds) (now : Int) (e : VisEntry)
    (rest : List VisEntry) (notice : String) :
    refreshModel th now (e :: rest) notice =
      ((refreshEntry th now notice e).1.toList ++
         (refreshModel th now rest (refreshEntry th now notice e).2.1).1,
       (refreshModel th now rest (refreshEntry th now notice e).2.1).2.1,
       (refreshEntry th now notice e).2.2 ++
         (refreshModel th now rest (refreshEntry th now notice e).2.1).2.2) := rfl

/-- Surviving rows are a sub-sequence of the window, identity-wise. -/
lemma refreshModel_idx_sublist (th : Thresholds) (now : Int) :
    ∀ (es : List VisEntry) (notice : String),
      List.Sublist ((refreshModel th now es notice).1.map (fun v => v.idx))
        (es.map (fun v => v.idx)) := by
  intro es
  induction es with
  | nil => intro notice; simp [refreshModel]
  | cons e rest ih =>
    intro notice
    rw [refreshModel_cons]
    cases hr : (refreshEntry th now notice e).1 with
    | none =>
      simp only [hr, Option.toList_none, List.nil_append]
      exact (ih _).trans (List.sublist_cons_self _ _)
    | some e' =>
      have hidx : e'.idx = e.idx := (refreshEntry_some_eq th now notice e e' hr).1
      simp only [hr, Option.toList_some, List.singleton_append, List.map_cons, hidx]
      exact (ih _).cons₂ _

lemma refreshModel_len (th : Thresholds) (now : Int) (es : List VisEntry)
    (notice : String) : (refreshModel th now es notice).1.length ≤ es.length := by
  have h := (refreshModel_idx_sublist th now es notice).length_le
  simpa using h

/-- Every emitted cue identifier comes from some row's `cuesOf`. -/
lemma refreshModel_events (th : Thresholds) (now : Int) :
    ∀ (es : List VisEntry) (notice : String) (ev : String),
      ev ∈ (refreshModel th now es notice).2.2 →
      ∃ e, e ∈ es ∧ ev ∈ cuesOf th now e := by
  intro es
  induction es with
  | nil => intro notice ev h; simp [refreshModel] at h
  | cons e rest ih =>
    intro notice ev h
    rw [refreshModel_cons] at h
    rcases List.mem_append.mp h with h | h
    · cases hr : (refreshEntry th now notice e).1 with
      | none =>
        rw [(refreshEntry_none_eq th now notice e hr).1] at h
        simp at h
      | some e' =>
        rw [(refreshEntry_some_eq th now notice e e' hr).2.2.2.2.2.2.2.2] at h
        exact ⟨e, List.mem_cons_self e rest, h⟩
    · obtain ⟨f, hf, hc⟩ := ih _ ev h
      exact ⟨f, List.mem_cons_of_mem e hf, hc⟩

lemma eligible_mem_unshownAny (now : Int) (items : List SchedItem) (it : SchedItem)
    (hmem : it ∈ items) (he : eligible now it = true)
    (hnd : (items.map (fun j => j.idx)).Nodup) :
    shownAny items it.idx = false := by
  rcases hs : shownAny items it.idx
  · rfl
  · exfalso
    obtain ⟨j, hj, hp⟩ := List.any_eq_true.mp hs
    rw [Bool.and_eq_true, beq_iff_eq] at hp
    have : j = it := List.inj_on_of_nodup_map hnd hj hmem hp.1
    subst this
    rw [eligible_shown now j he] at hp
    exact Bool.noConfusion hp.2

lemma tickB_allItems_map_idx (th : Thresholds) (now : Int) (b : Board) :
    (tickB th now b).allItems.map (fun it => it.idx) =
      b.allItems.map (fun it => it.idx) := by
  unfold tickB tick fillUpToSix
  exact fillAux_map_idx now b.allItems.length b.allItems _

lemma tickB_allItems_map_time (th : Thresholds) (now : Int) (b : Board) :
    (tickB th now b).allItems.map (fun it => it.time) =
      b.allItems.map (fun it => it.time) := by
  unfold tickB tick fillUpToSix
  exact fillAux_map_time now b.allItems.length b.allItems _

lemma tickB_shownAt_mono (th : Thresholds) (now : Int) (b : Board) (i : Nat)
    (h : shownAt b i = true) : shownAt (tickB th now b) i = true := by
  unfold tickB tick fillUpToSix shownAt
  exact fillAux_shownAny_mono now b.allItems.length b.allItems _ i h

/-- The window after a tick: the survivors followed by the newly promoted
first eligible schedule entries. -/
lemma tickB_model_eq (th : Thresholds) (now : Int) (b : Board) :
    (tickB th now b).model =
      (refreshModel th now b.model b.notice).1 ++
        ((b.allItems.filter (eligible now)).take
            (6 - (refreshModel th now b.model b.notice).1.length)).map mkVis := by
  unfold tickB tick fillUpToSix
  exact fillAux_spec now b.allItems.length b.allItems _
    (List.length_filter_le _ _)

/-- An identity in the window after a tick either was in the window before,
or belongs to a schedule item that was still unshown before the tick. -/
lemma tickB_new_or_old (th : Thresholds) (now : Int) (b : Board)
    (hnd : (b.allItems.map (fun it => it.idx)).Nodup) (i : Nat)
    (h : i ∈ modelIdxs (tickB th now b)) :
    i ∈ modelIdxs b ∨ shownAt b i = false := by
  rw [modelIdxs, tickB_model_eq, List.map_append] at h
  rcases List.mem_append.mp h with h | h
  · left
    exact (refreshModel_idx_sublist th now b.model b.notice).subset h
  · obtain ⟨v, hv, hvi⟩ := List.mem_map.mp h
    by_cases hvs : v ∈ (refreshModel th now b.model b.notice).1
    · left
      have : v.idx ∈ (refreshModel th now b.model b.notice).1.map (fun w => w.idx) :=
        List.mem_map.mpr ⟨v, hvs, rfl⟩
      rw [hvi] at this
      exact (refreshModel_idx_sublist th now b.model b.notice).subset this
    · right
      have hvfill : v ∈ (fillAux now b.allItems.length b.allItems
          (refreshModel th now b.model b.notice).1).2 := by
        rw [fillAux_spec now b.allItems.length b.allItems _ (List.length_filter_le _ _)]
        exact List.mem_append.mpr (Or.inr hv)
      have := fillAux_new_unshown now b.allItems.length b.allItems
        (refreshModel th now b.model b.notice).1 hnd v hvfill hvs
      rw [shownAt, ← hvi]
      exact this

/-- Once a schedule item is marked shown and its row has left the window,
no later tick brings it back. -/
lemma tickB_no_readd (th : Thresholds) (now : Int) (b : Board)
    (hnd : (b.allItems.map (fun it => it.idx)).Nodup) (i : Nat)
    (hshown : shownAt b i = true) (hout : i ∉ modelIdxs b) :
    i ∉ modelIdxs (tickB th now b) := by
  intro hin
  rcases tickB_new_or_old th now b hnd i hin with h | h
  · exact hout h
  · rw [hshown] at h
    exact Bool.noConfusion h

/-- One tick preserves the window/schedule invariant. -/
lemma tickB_inv (th : Thresholds) (now : Int) (b : Board) (hb : Inv b) :
    Inv (tickB th now b) := by
  obtain ⟨hlen, hndA, hndM, hshown⟩ := hb
  have hSlen : (refreshModel th now b.model b.notice).1.length ≤ 6 :=
    le_trans (refreshModel_len th now b.model b.notice) hlen
  have hSsub := refreshModel_idx_sublist th now b.model b.notice
  refine ⟨?_, ?_, ?_, ?_⟩
  · unfold tickB tick fillUpToSix
    exact fillAux_len now b.allItems.length b.allItems _ hSlen
  · rw [tickB_allItems_map_idx]
    exact hndA
  · rw [modelIdxs, tickB_model_eq, List.map_append]
    have hS : ((refreshModel th now b.model b.notice).1.map (fun v => v.idx)).Nodup :=
      hndM.sublist hSsub
    have hNsub : List.Sublist
        (((b.allItems.filter (eligible now)).take
            (6 - (refreshModel th now b.model b.notice).1.length)).map (fun it => it.idx))
        (b.allItems.map (fun it => it.idx)) :=
      ((List.take_sublist _ _).trans (List.filter_sublist _)).map _
    have hN : (((b.allItems.filter (eligible now)).take
        (6 - (refreshModel th now b.model b.notice).1.length)).map mkVis).map
          (fun v => v.idx) =
        ((b.allItems.filter (eligible now)).take
            (6 - (refreshModel th now b.model b.notice).1.length)).map
          (fun it => it.idx) := by
      rw [List.map_map]
      rfl
    refine List.Nodup.append hS (by rw [hN]; exact hndA.sublist hNsub) ?_
    intro a haS haN
    have haM : a ∈ modelIdxs b := hSsub.subset haS
    have haT : shownAt b a = true := hshown a haM
    rw [hN] at haN
    obtain ⟨it, hit, hai⟩ := List.mem_map.mp haN
    have hitF : it ∈ b.allItems.filter (eligible now) := List.mem_of_mem_take hit
    have hitI : it ∈ b.allItems := List.mem_of_mem_filter hitF
    have hitE : eligible now it = true := List.of_mem_filter hitF
    have := eligible_mem_unshownAny now b.allItems it hitI hitE hndA
    rw [hai] at this
    rw [shownAt] at haT
    rw [haT] at this
    exact Bool.noConfusion this
  · intro i hi
    obtain ⟨v, hv, hvi⟩ := List.mem_map.mp hi
    subst hvi
    unfold tickB tick fillUpToSix at hv
    unfold tickB tick fillUpToSix shownAt
    refine fillAux_model_shown now b.allItems.length b.allItems _ ?_ v hv
    intro w hw
    refine hshown w.idx ?_
    exact hSsub.subset (List.mem_map.mpr ⟨w, hw, rfl⟩)

/-! ### Traces and loading -/

lemma runTicks_append (th : Thresholds) (b : Board) (l1 l2 : List Int) :
    runTicks th b (l1 ++ l2) = runTicks th (runTicks th b l1) l2 := by
  simp [runTicks, List.foldl_append]

lemma runTicks_inv (th : Thresholds) :
    ∀ (nows : List Int) (b : Board), Inv b → Inv (runTicks th b nows) := by
  intro nows
  induction nows with
  | nil => intro b hb; exact hb
  | cons n ns ih => intro b hb; exact ih (tickB th n b) (tickB_inv th n b hb)

lemma runTicks_shownAt_mono (th : Thresholds) :
    ∀ (nows : List Int) (b : Board) (i : Nat),
      shownAt b i = true → shownAt (runTicks th b nows) i = true := by
  intro nows
  induction nows with
  | nil => intro b i h; exact h
  | cons n ns ih =>
    intro b i h
    exact ih (tickB th n b) i (tickB_shownAt_mono th n b i h)

lemma runTicks_no_readd (th : Thresholds) :
    ∀ (nows : List Int) (b : Board), Inv b → ∀ i : Nat,
      shownAt b i = true → i ∉ modelIdxs b →
      i ∉ modelIdxs (runTicks th b nows) := by
  intro nows
  induction nows with
  | nil => intro b _ i _ hout; exact hout
  | cons n ns ih =>
    intro b hb i hshown hout
    exact ih (tickB th n b) (tickB_inv th n b hb) i
      (tickB_shownAt_mono th n b i hshown)
      (tickB_no_readd th n b hb.2.1 i hshown hout)

lemma reindexFrom_map_time :
    ∀ (n : Nat) (l : List SchedItem),
      (reindexFrom n l).map (fun it => it.time) = l.map (fun it => it.time) := by
  intro n l
  induction l generalizing n with
  | nil => rfl
  | cons it rest ih => simp [reindexFrom, ih]

lemma reindexFrom_map_idx :
    ∀ (n : Nat) (l : List SchedItem),
      (reindexFrom n l).map (fun it => it.idx) = List.range' n l.length := by
  intro n l
  induction l generalizing n with
  | nil => rfl
  | cons it rest ih => simp [reindexFrom, ih, List.range'_succ]

/-- The window refilled from an empty window over a freshly indexed
schedule satisfies the invariant. -/
lemma fill_fresh_inv (now : Int) (items0 : List SchedItem) (notice : String)
    (hnd : (items0.map (fun it => it.idx)).Nodup) :
    Inv (fillUpToSix now { allItems := items0, model := [], notice := notice }) := by
  refine ⟨?_, ?_, ?_, ?_⟩
  · unfold fillUpToSix
    exact fillAux_len now items0.length items0 [] (by simp)
  · show ((fillUpToSix now _).allItems.map (fun it => it.idx)).Nodup
    unfold fillUpToSix
    rw [fillAux_map_idx now items0.length items0 []]
    exact hnd
  · show ((fillUpToSix now _).model.map (fun v => v.idx)).Nodup
    unfold fillUpToSix
    dsimp only
    rw [fillAux_spec now items0.length items0 [] (List.length_filter_le _ _)]
    have hsub : List.Sublist
        (((items0.filter (eligible now)).take 6).map (fun it => it.idx))
        (items0.map (fun it => it.idx)) :=
      ((List.take_sublist _ _).trans (List.filter_sublist _)).map _
    have hmm : (((items0.filter (eligible now)).take 6).map mkVis).map (fun v => v.idx) =
        ((items0.filter (eligible now)).take 6).map (fun it => it.idx) := by
      rw [List.map_map]
      rfl
    simpa [hmm] using hnd.sublist hsub
  · intro i hi
    obtain ⟨v, hv, hvi⟩ := List.mem_map.mp hi
    subst hvi
    show shownAny _ v.idx = true
    unfold fillUpToSix at hv ⊢
    exact fillAux_model_shown now items0.length items0 [] (by simp) v hv

/-- A successful load yields a board satisfying the invariant, with the
schedule sorted ascending by effective time. -/
lemma setDepartures_ok (now : Int) (deps : List JVal) (b b' : Board)
    (h : setDepartures now deps b = .ok b') :
    Inv b' ∧ timesSorted b'.allItems := by
  unfold setDepartures at h
  cases hm : deps.mapM (parseItem now) with
  | error e =>
    rw [hm] at h
    exact Except.noConfusion h
  | ok parsed =>
    rw [hm] at h
    injection h with h
    subst h
    have hnd : ((reindex (parsed.insertionSort byTime)).map (fun it => it.idx)).Nodup := by
      rw [reindex, reindexFrom_map_idx]
      exact List.nodup_range' _ _
    refine ⟨fill_fresh_inv now _ b.notice hnd, ?_⟩
    show ((fillUpToSix now _).allItems.map (fun it => it.time)).Sorted _
    unfold fillUpToSix
    rw [fillAux_map_time now _ _ []]
    show ((reindex (parsed.insertionSort byTime)).map (fun it => it.time)).Sorted _
    rw [reindex, reindexFrom_map_time]
    have hs := List.sorted_insertionSort byTime parsed
    rw [List.Sorted, List.pairwise_map]
    exact hs

/-! ### The claims -/

/-- C1: for every schedule and every sequence of load and tick steps, the
visible window holds at most 6 rows and its ghost identities stay distinct;
`shown` flags are monotone along ticks (reset only by a reload); a row is
promoted only when its schedule item is still unshown, and the promotion
marks it shown; and an identity that has left the window never re-enters
it on any later tick. -/
theorem claim_C1 (th : Thresholds) (now0 : Int) (deps : List JVal)
    (b0 bL : Board) (hload : setDepartures now0 deps b0 = Except.ok bL) :
    (∀ pre : List Int, (runTicks th bL pre).model.length ≤ 6) ∧
    (∀ pre : List Int, (modelIdxs (runTicks th bL pre)).Nodup) ∧
    (∀ (pre more : List Int) (i : Nat), shownAt (runTicks th bL pre) i = true →
      shownAt (runTicks th bL (pre ++ more)) i = true) ∧
    (∀ (pre : List Int) (t : Int) (i : Nat),
      i ∉ modelIdxs (runTicks th bL pre) →
      i ∈ modelIdxs (runTicks th bL (pre ++ [t])) →
      shownAt (runTicks th bL pre) i = false ∧
      shownAt (runTicks th bL (pre ++ [t])) i = true) ∧
    (∀ (pre mid more : List Int) (i : Nat),
      i ∈ modelIdxs (runTicks th bL pre) →
      i ∉ modelIdxs (runTicks th bL (pre ++ mid)) →
      i ∉ modelIdxs (runTicks th bL (pre ++ mid ++ more))) := by
  have hInv0 : Inv bL := (setDepartures_ok now0 deps b0 bL hload).1
  have hInv : ∀ pre : List Int, Inv (runTicks th bL pre) :=
    fun pre => runTicks_inv th pre bL hInv0
  refine ⟨fun pre => (hInv pre).1, fun pre => (hInv pre).2.2.1, ?_, ?_, ?_⟩
  · intro pre more i h
    rw [runTicks_append]
    exact runTicks_shownAt_mono th more _ i h
  · intro pre t i hout hin
    have hstep : runTicks th bL (pre ++ [t]) = tickB th t (runTicks th bL pre) := by
      rw [runTicks_append]
      rfl
    constructor
    · rw [hstep] at hin
      rcases tickB_new_or_old th t _ (hInv pre).2.1 i hin with h | h
      · exact absurd h hout
      · exact h
    · exact (hInv (pre ++ [t])).2.2.2 i hin
  · intro pre mid more i hin hout
    have hshown1 : shownAt (runTicks th bL pre) i = true := (hInv pre).2.2.2 i hin
    have hshown2 : shownAt (runTicks th bL (pre ++ mid)) i = true := by
      rw [runTicks_append]
      exact runTicks_shownAt_mono th mid _ i hshown1
    rw [runTicks_append]
    exact runTicks_no_readd th more _ (hInv (pre ++ mid)) i hshown2 hout

theorem claim_C1_witness :
    setDepartures 0 c1Deps { allItems := [], model := [], notice := "" } =
      Except.ok c1Board ∧
    (runTicks defaultTh c1Board [28800, 28900]).model.length ≤ 6 ∧
    (modelIdxs (runTicks defaultTh c1Board [28800, 28900])).Nodup := by
  have hload : setDepartures 0 c1Deps { allItems := [], model := [], notice := "" } =
      Except.ok c1Board := by rfl
  exact ⟨hload,
    (claim_C1 defaultTh 0 c1Deps _ c1Board hload).1 [28800, 28900],
    (claim_C1 defaultTh 0 c1Deps _ c1Board hload).2.1 [28800, 28900]⟩

lemma refreshEntry_passBefore (th : Thresholds) (v now : Int) (notice : String)
    (e : VisEntry) :
    refreshEntry { th with passBefore := v } now notice e =
      refreshEntry th now notice e := rfl

/-- C10: the tick step's observable behaviour — window contents, statuses,
platform-notice text, emitted cues and removals — does not depend on the
`pass_before_secs` threshold: it is read from the configuration but never
consulted. -/
theorem claim_C10 (th : Thresholds) (v : Int) (now : Int) (b : Board) :
    tick { th with passBefore := v } now b = tick th now b := by
  have hm : ∀ (es : List VisEntry) (n : String),
      refreshModel { th with passBefore := v } now es n = refreshModel th now es n := by
    intro es
    induction es with
    | nil => intro n; rfl
    | cons e rest ih =>
      intro n
      rw [refreshModel_cons, refreshModel_cons, refreshEntry_passBefore, ih]
  unfold tick
  rw [hm]

/-- C2: whenever the window has fewer than 6 rows, the fill step appends
exactly the first not-yet-shown schedule entries with
`effective_time >= now - 60` (the `eligible` test), in schedule order,
until the window has 6 rows or no eligible entry remains — equationally,
the promoted rows are `take (6 - |window|)` of the eligible filter of the
schedule; consequently on a sorted schedule a fill from an empty window
lists effective times in ascending order. -/
theorem claim_C2 (now : Int) (b : Board) (hs : timesSorted b.allItems) :
    (fillUpToSix now b).model =
      b.model ++
        ((b.allItems.filter (eligible now)).take (6 - b.model.length)).map mkVis ∧
    (b.model = [] →
      ((fillUpToSix now b).model.map (fun v => v.time)).Sorted (fun a c => a ≤ c)) := by
  have h1 : (fillUpToSix now b).model =
      b.model ++
        ((b.allItems.filter (eligible now)).take (6 - b.model.length)).map mkVis := by
    unfold fillUpToSix
    dsimp only
    exact fillAux_spec now b.allItems.length b.allItems b.model (List.length_filter_le _ _)
  refine ⟨h1, ?_⟩
  intro hempty
  have h2 : (fillUpToSix now b).model.map (fun v => v.time) =
      ((b.allItems.filter (eligible now)).take 6).map (fun it => it.time) := by
    rw [h1, hempty]
    simp [List.map_map]
    rfl
  rw [h2]
  have hsub : List.Sublist
      (((b.allItems.filter (eligible now)).take 6).map (fun it => it.time))
      (b.allItems.map (fun it => it.time)) :=
    ((List.take_sublist _ _).trans (List.filter_sublist _)).map _
  exact hs.sublist hsub

theorem claim_C2_witness :
    timesSorted c2Board.allItems ∧
    (fillUpToSix 100 c2Board).model =
      c2Board.model ++
        ((c2Board.allItems.filter (eligible 100)).take (6 - c2Board.model.length)).map mkVis ∧
    (fillUpToSix 100 c2Board).model.map (fun v => v.time) = [100, 200, 300] := by
  have hs : timesSorted c2Board.allItems := by
    rw [timesSorted]
    decide
  exact ⟨hs, (claim_C2 100 c2Board hs).1, by decide⟩

/-- C6: a regular (non-terminal, non-pass-through) row with `delta >= 0`
follows the three-tier ladder — `delta <= stop_before_secs` gives "停車中"
(stopped), else `delta <= arrival_before_secs` gives "到着" (arrived), else
`delta <= approach_before_secs` gives "接近" (approaching), else "定刻" /
"遅延" (on time / delayed); with default thresholds 77/57/40 a record at
08:00 shows 停車中 at 08:00:00, 接近 at 07:58:50 and 定刻 at 07:58:00. -/
theorem claim_C6 (th : Thresholds) (now : Int) (notice : String) (e : VisEntry)
    (hterm : e.raw.terminalHere = false) (hpass : e.raw.passThrough = false)
    (hd : 0 ≤ e.time - now) (hra : 0 < th.removeAfter) :
    (∃ e', (refreshEntry th now notice e).1 = some e' ∧
      e'.status =
        (if e.time - now ≤ th.stopBefore then "停車中"
         else if e.time - now ≤ th.arrivalBefore then "到着"
         else if e.time - now ≤ th.approachBefore then "接近"
         else if isDelayedE e then "遅延" else "定刻")) ∧
    (refreshEntry defaultTh 28800 "" c6Entry).1.map (fun v => v.status) = some "停車中" ∧
    (refreshEntry defaultTh 28730 "" c6Entry).1.map (fun v => v.status) = some "接近" ∧
    (refreshEntry defaultTh 28680 "" c6Entry).1.map (fun v => v.status) = some "定刻" := by
  have hdel : ¬ (e.time - now ≤ -th.removeAfter) := by omega
  refine ⟨⟨(statusAndCues th now notice e).1, ?_, ?_⟩, by decide, by decide, by decide⟩
  · unfold refreshEntry
    dsimp only
    simp [hterm, hpass, hdel]
  · show (statusAndCues th now notice e).1.status = _
    have h1 : (statusAndCues th now notice e).1.status = newStatus th now e := rfl
    rw [h1]
    unfold newStatus ladder
    simp [hterm, hpass, hd]

theorem claim_C6_witness :
    c6Entry.raw.terminalHere = false ∧ c6Entry.raw.passThrough = false ∧
    (0 : Int) ≤ c6Entry.time - 28730 ∧ (0 : Int) < defaultTh.removeAfter ∧
    (∃ e', (refreshEntry defaultTh 28730 "" c6Entry).1 = some e' ∧
      e'.status =
        (if c6Entry.time - 28730 ≤ defaultTh.stopBefore then "停車中"
         else if c6Entry.time - 28730 ≤ defaultTh.arrivalBefore then "到着"
         else if c6Entry.time - 28730 ≤ defaultTh.approachBefore then "接近"
         else if isDelayedE c6Entry then "遅延" else "定刻")) :=
  ⟨rfl, rfl, by decide, by decide,
    (claim_C6 defaultTh 28730 "" c6Entry rfl rfl (by decide) (by decide)).1⟩

/-- C4: terminal-here rows (`type == "回送"`).  The first tick with
`delta <= 0` sets `dwell_until = effective_time + 60` and it is never
changed afterwards; the row shows the terminal "stopped" status
("終着 停車中") until `now >= dwell_until`; the first tick with
`now >= dwell_until` sets `post_depart_at = now` (once) and shows "発車"
(departed); the row is removed once `now - post_depart_at >=
remove_after_secs`. -/
theorem claim_C4 (th : Thresholds) (now : Int) (notice : String) (e : VisEntry)
    (hterm : e.raw.terminalHere = true) (hstop : 0 ≤ th.stopBefore)
    (hra : 0 < th.removeAfter) :
    (e.dwellUntil = none → e.time - now ≤ 0 →
      ∀ e', (refreshEntry th now notice e).1 = some e' →
        e'.dwellUntil = some (e.time + 60)) ∧
    (∀ d, e.dwellUntil = some d →
      ∀ e', (refreshEntry th now notice e).1 = some e' → e'.dwellUntil = some d) ∧
    (e.dwellUntil = none → e.time - now ≤ 0 → now < e.time + 60 →
      ∃ e', (refreshEntry th now notice e).1 = some e' ∧ e'.status = "終着 停車中") ∧
    (∀ d, e.dwellUntil = some d → e.time - now ≤ 0 → now < d →
      ∃ e', (refreshEntry th now notice e).1 = some e' ∧ e'.status = "終着 停車中") ∧
    (e.dwellUntil = some (e.time + 60) → e.time + 60 ≤ now → e.postDepartAt = none →
      ∃ e', (refreshEntry th now notice e).1 = some e' ∧
        e'.postDepartAt = some now ∧ e'.status = "発車") ∧
    (∀ d p, e.dwellUntil = some d → d ≤ now → e.postDepartAt = some p →
      now - p < th.removeAfter →
      ∃ e', (refreshEntry th now notice e).1 = some e' ∧ e'.postDepartAt = some p) ∧
    (∀ d p, e.dwellUntil = some d → d ≤ now → e.postDepartAt = some p →
      th.removeAfter ≤ now - p → (refreshEntry th now notice e).1 = none) := by
  refine ⟨?_, ?_, ?_, ?_, ?_, ?_, ?_⟩
  · intro hdw hdel e' he'
    unfold refreshEntry at he'
    dsimp only at he'
    simp only [hterm, hdw, hdel, Option.isNone_none, Bool.true_and, Bool.and_true,
      decide_True, if_true] at he'
    split_ifs at he' <;>
      first
        | exact Option.noConfusion he'
        | (injection he' with he'; subst he'; rfl)
  · intro d hdw e' he'
    unfold refreshEntry at he'
    dsimp only at he'
    simp only [hterm, hdw, Option.isNone_some, Bool.true_and, Bool.false_and,
      Bool.and_false, Bool.false_eq_true, if_false] at he'
    split_ifs at he' <;>
      first
        | exact Option.noConfusion he'
        | (injection he' with he'; subst he'; rfl)
        | (injection he' with he'; subst he'; exact hdw)
  · intro hdw hdel hlt
    have hnotyet : ¬ ((e.time + 60 : Int) ≤ now) := by omega
    refine ⟨(statusAndCues th now notice { e with dwellUntil := some (e.time + 60) }).1, ?_, ?_⟩
    · unfold refreshEntry
      dsimp only
      simp [hterm, hdw, hdel, hnotyet]
    · show (statusAndCues th now notice { e with dwellUntil := some (e.time + 60) }).1.status = _
      have h1 : (statusAndCues th now notice { e with dwellUntil := some (e.time + 60) }).1.status =
          newStatus th now { e with dwellUntil := some (e.time + 60) } := rfl
      rw [h1]
      unfold newStatus ladder
      rcases lt_or_eq_of_le hdel with hlt0 | heq0
      · have : ¬ ((0 : Int) ≤ e.time - now) := by omega
        simp [hterm, this, hnotyet]
      · have h0 : (0 : Int) ≤ e.time - now := by omega
        have h0' : e.time - now ≤ th.stopBefore := by omega
        simp [hterm, h0, h0']
  · intro d hdw hdel hlt
    have hnotyet : ¬ (d ≤ now) := by omega
    refine ⟨(statusAndCues th now notice e).1, ?_, ?_⟩
    · unfold refreshEntry
      dsimp only
      simp [hterm, hdw, hnotyet]
    · show (statusAndCues th now notice e).1.status = _
      have h1 : (statusAndCues th now notice e).1.status = newStatus th now e := rfl
      rw [h1]
      unfold newStatus ladder
      rcases lt_or_eq_of_le hdel with hlt0 | heq0
      · have hneg : ¬ ((0 : Int) ≤ e.time - now) := by omega
        simp [hterm, hneg, hdw, hnotyet]
      · have h0 : (0 : Int) ≤ e.time - now := by omega
        have h0' : e.time - now ≤ th.stopBefore := by omega
        simp [hterm, h0, h0']
  · intro hdw hle hpost
    have hneg : ¬ ((0 : Int) ≤ e.time - now) := by omega
    have hnr : ¬ (th.removeAfter ≤ now - now) := by omega
    have hnr0 : ¬ (th.removeAfter ≤ (0 : Int)) := by omega
    refine ⟨(statusAndCues th now notice { e with postDepartAt := some now }).1, ?_, ?_, ?_⟩
    · unfold refreshEntry
      dsimp only
      simp [hterm, hdw, hle, hpost, hnr, hnr0]
    · rfl
    · show (statusAndCues th now notice
          { e with postDepartAt := some now }).1.status = _
      have h1 : (statusAndCues th now notice { e with postDepartAt := some now }).1.status =
          newStatus th now { e with postDepartAt := some now } := rfl
      rw [h1]
      unfold newStatus
      simp [hterm, hneg, hdw, hle]
  · intro d p hdw hle hpost hnr
    have hnr' : ¬ (th.removeAfter ≤ now - p) := by omega
    refine ⟨(statusAndCues th now notice e).1, ?_, ?_⟩
    · unfold refreshEntry
      dsimp only
      simp [hterm, hdw, hle, hpost, hnr']
    · exact hpost
  · intro d p hdw hle hpost hnr
    unfold refreshEntry
    dsimp only
    simp [hterm, hdw, hle, hpost, hnr]

theorem claim_C4_witness :
    c4Entry.raw.terminalHere = true ∧
    (0 : Int) ≤ defaultTh.stopBefore ∧ (0 : Int) < defaultTh.removeAfter ∧
    (∃ e', (refreshEntry defaultTh 32401 "" c4Entry).1 = some e' ∧
      e'.status = "終着 停車中") ∧
    (refreshEntry defaultTh 32401 "" c4Entry).1.map (fun v => v.dwellUntil) =
      some (some 32460) :=
  ⟨rfl, by decide, by decide,
   (claim_C4 defaultTh 32401 "" c4Entry rfl (by decide) (by decide)).2.2.1
     rfl (by decide) (by decide),
   by decide⟩

/-! ### Cue characterizations (C3, C7, C8) -/

lemma fireArrival_iff (th : Thresholds) (now : Int) (e : VisEntry) :
    fireArrival th now e = true ↔
      (0 ≤ e.time - now ∧
        (∃ ld, e.lastDelta = some ld ∧ th.arrivalBefore < ld ∧
          e.time - now ≤ th.arrivalBefore) ∧
        e.playedArrival = false) := by
  unfold fireArrival
  cases hld : e.lastDelta with
  | none => simp
  | some ld => simp [Bool.and_eq_true, decide_eq_true_eq, and_assoc]

lemma firePre_iff (th : Thresholds) (now : Int) (e : VisEntry) :
    firePre th now e = true ↔
      (0 ≤ e.time - now ∧
        (∃ ld, e.lastDelta = some ld ∧ th.approachBefore < ld ∧
          e.time - now ≤ th.approachBefore) ∧
        e.playedPre77 = false) := by
  unfold firePre
  cases hld : e.lastDelta with
  | none => simp
  | some ld => simp [Bool.and_eq_true, decide_eq_true_eq, and_assoc]

lemma firePass_iff (th : Thresholds) (now : Int) (e : VisEntry) :
    firePass th now e = true ↔
      (e.raw.passThrough = true ∧ e.time - now = 0 ∧
        (∃ ld, e.lastDelta = some ld ∧ 0 < ld) ∧
        e.playedPass = false) := by
  unfold firePass
  cases hld : e.lastDelta with
  | none => simp
  | some ld =>
    simp [Bool.and_eq_true, decide_eq_true_eq, and_assoc]
    intro _
    constructor
    · rintro ⟨h1, h2, h3, h4⟩
      exact ⟨by omega, h2, h4⟩
    · rintro ⟨h1, h2, h3⟩
      exact ⟨by omega, h2, by omega, h3⟩

lemma fireDeparted_iff (now : Int) (e : VisEntry) :
    fireDeparted now e = true ↔
      (e.raw.terminalHere = false ∧ e.raw.passThrough = false ∧
        e.time - now < 0 ∧ e.playedDeparted = false) := by
  unfold fireDeparted
  simp [Bool.and_eq_true, decide_eq_true_eq, and_assoc]

lemma mem_events_iff (th : Thresholds) (now : Int) (notice : String)
    (e : VisEntry) (ev : String) :
    ev ∈ (refreshEntry th now notice e).2.2 ↔
      ((∃ e', (refreshEntry th now notice e).1 = some e') ∧
        ev ∈ cuesOf th now e) := by
  cases hr : (refreshEntry th now notice e).1 with
  | none =>
    rw [(refreshEntry_none_eq th now notice e hr).1]
    simp
  | some e' =>
    rw [(refreshEntry_some_eq th now notice e e' hr).2.2.2.2.2.2.2.2]
    simp

/-- C3 as stated is false: at the tick where the arrival threshold is
crossed downward (`last_delta = 58 > 57 >= delta = -1`) with the cue not
yet played, the code emits only "depart" — the arrival cue block runs only
while `delta >= 0`. -/
theorem claim_C3_counterexample :
    c3Entry.lastDelta = some 58 ∧ c3Entry.playedArrival = false ∧
    defaultTh.arrivalBefore < 58 ∧ c3Entry.time - 1001 ≤ defaultTh.arrivalBefore ∧
    (refreshEntry defaultTh 1001 "" c3Entry).2.2 = ["depart"] ∧
    ¬ ("arrival" ∈ (refreshEntry defaultTh 1001 "" c3Entry).2.2) := by
  decide

/-- C3, amended to the code: the cue block runs only on ticks with
`delta >= 0` (so the downward crossings are *observed* there, and the pass
cue needs `delta == 0` exactly), while the `depart` cue fires on the first
surviving tick with `delta < 0`; each cue is recorded in `played` when it
fires and is never emitted again for that row on any later tick. -/
theorem claim_C3_amended (th : Thresholds) (now : Int) (notice : String)
    (e : VisEntry) :
    ("arrival" ∈ (refreshEntry th now notice e).2.2 ↔
      ((∃ e', (refreshEntry th now notice e).1 = some e') ∧
        0 ≤ e.time - now ∧
        (∃ ld, e.lastDelta = some ld ∧ th.arrivalBefore < ld ∧
          e.time - now ≤ th.arrivalBefore) ∧
        e.playedArrival = false)) ∧
    ("pre30" ∈ (refreshEntry th now notice e).2.2 ↔
      ((∃ e', (refreshEntry th now notice e).1 = some e') ∧
        0 ≤ e.time - now ∧
        (∃ ld, e.lastDelta = some ld ∧ th.approachBefore < ld ∧
          e.time - now ≤ th.approachBefore) ∧
        e.playedPre77 = false)) ∧
    ("pass" ∈ (refreshEntry th now notice e).2.2 ↔
      ((∃ e', (refreshEntry th now notice e).1 = some e') ∧
        e.raw.passThrough = true ∧ e.time - now = 0 ∧
        (∃ ld, e.lastDelta = some ld ∧ 0 < ld) ∧
        e.playedPass = false)) ∧
    ("depart" ∈ (refreshEntry th now notice e).2.2 ↔
      ((∃ e', (refreshEntry th now notice e).1 = some e') ∧
        e.raw.terminalHere = false ∧ e.raw.passThrough = false ∧
        e.time - now < 0 ∧ e.playedDeparted = false)) ∧
    (∀ nows : List Int, (entryRun th nows e).2.count "arrival" ≤ 1) ∧
    (∀ nows : List Int, (entryRun th nows e).2.count "pre30" ≤ 1) ∧
    (∀ nows : List Int, (entryRun th nows e).2.count "pass" ≤ 1) ∧
    (∀ nows : List Int, (entryRun th nows e).2.count "depart" ≤ 1) ∧
    (e.playedArrival = true → ∀ nows : List Int,
      "arrival" ∉ (entryRun th nows e).2) ∧
    (e.playedPre77 = true → ∀ nows : List Int,
      "pre30" ∉ (entryRun th nows e).2) ∧
    (e.playedPass = true → ∀ nows : List Int,
      "pass" ∉ (entryRun th nows e).2) ∧
    (e.playedDeparted = true → ∀ nows : List Int,
      "depart" ∉ (entryRun th nows e).2) := by
  have honceA := entryRun_once th (fun v => v.playedArrival) (fireArrival th) "arrival"
    (fun n nt a a' h => (refreshEntry_some_eq th n nt a a' h).2.2.2.1)
    (fun n a => mem_cuesOf_arrival th n a)
    (fun n a h => fireArrival_flag n th a h)
  have honceP := entryRun_once th (fun v => v.playedPre77) (firePre th) "pre30"
    (fun n nt a a' h => (refreshEntry_some_eq th n nt a a' h).2.2.2.2.1)
    (fun n a => mem_cuesOf_pre30 th n a)
    (fun n a h => firePre_flag n th a h)
  have honceS := entryRun_once th (fun v => v.playedPass) (firePass th) "pass"
    (fun n nt a a' h => (refreshEntry_some_eq th n nt a a' h).2.2.2.2.2.1)
    (fun n a => mem_cuesOf_pass th n a)
    (fun n a h => firePass_flag n th a h)
  have honceD := entryRun_once th (fun v => v.playedDeparted) (fun n a => fireDeparted n a)
    "depart"
    (fun n nt a a' h => (refreshEntry_some_eq th n nt a a' h).2.2.2.2.2.2.1)
    (fun n a => mem_cuesOf_depart th n a)
    (fun n a h => fireDeparted_flag n a h)
  refine ⟨?_, ?_, ?_, ?_,
    fun nows => (honceA nows e).2, fun nows => (honceP nows e).2,
    fun nows => (honceS nows e).2, fun nows => (honceD nows e).2,
    ?_, ?_, ?_, ?_⟩
  · rw [mem_events_iff, mem_cuesOf_arrival, fireArrival_iff]
  · rw [mem_events_iff, mem_cuesOf_pre30, firePre_iff]
  · rw [mem_events_iff, mem_cuesOf_pass, firePass_iff]
  · rw [mem_events_iff, mem_cuesOf_depart, fireDeparted_iff]
  · intro hp nows
    exact List.count_eq_zero.mp ((honceA nows e).1 hp)
  · intro hp nows
    exact List.count_eq_zero.mp ((honceP nows e).1 hp)
  · intro hp nows
    exact List.count_eq_zero.mp ((honceS nows e).1 hp)
  · intro hp nows
    exact List.count_eq_zero.mp ((honceD nows e).1 hp)

theorem claim_C3_amended_witness :
    "pass" ∈ (refreshEntry defaultTh 1000 "" c3PassEntry).2.2 ∧
    (entryRun defaultTh [999, 1000, 1001] c3PassEntry).2.count "pass" ≤ 1 :=
  ⟨(claim_C3_amended defaultTh 1000 "" c3PassEntry).2.2.1.mpr
      ⟨Option.isSome_iff_exists.mp (by decide), rfl, by decide, ⟨1, rfl, by decide⟩, rfl⟩,
    (claim_C3_amended defaultTh 0 "" c3PassEntry).2.2.2.2.2.2.1 [999, 1000, 1001]⟩

/-- C7 as stated is false: the engine emits the identifier "pre30" (for the
approach cue), which is not one of `arrival`, `pre_approach`, `departed`,
`pass`; those are not the strings the code passes to `on_event`. -/
theorem claim_C7_counterexample :
    "pre30" ∈ (tick defaultTh 1000 c7bBoard).2 ∧
    ¬ ("pre30" = "arrival" ∨ "pre30" = "pre_approach" ∨
        "pre30" = "departed" ∨ "pre30" = "pass") := by
  decide

/-- C7, amended to the code: every value the engine passes to the event
emission hook is one of the four identifiers `arrival`, `pre30`, `pass`,
`depart` (main.py:797, 801, 806, 838); no other identifier is ever
emitted. -/
theorem claim_C7_amended (th : Thresholds) (now : Int) (b : Board) (ev : String)
    (h : ev ∈ (tick th now b).2) :
    ev = "arrival" ∨ ev = "pre30" ∨ ev = "pass" ∨ ev = "depart" := by
  have h' : ev ∈ (refreshModel th now b.model b.notice).2.2 := h
  obtain ⟨e, _, hc⟩ := refreshModel_events th now b.model b.notice ev h'
  exact mem_cuesOf th now e ev hc

theorem claim_C7_amended_witness :
    "depart" ∈ (tick defaultTh 1001 c7Board).2 ∧
    ("depart" = "arrival" ∨ "depart" = "pre30" ∨ "depart" = "pass" ∨
      "depart" = "depart") :=
  ⟨by decide, claim_C7_amended defaultTh 1001 c7Board "depart" (by decide)⟩

/-- C8 as stated is false: the cue block (main.py:792-806) runs for every
kind of row with `delta >= 0`, so a pass-through row crossing
`arrival_before_secs` does emit the arrival cue. -/
theorem claim_C8_counterexample :
    c8Entry.raw.passThrough = true ∧
    "arrival" ∈ (refreshEntry defaultTh 1000 "" c8Entry).2.2 := by
  decide

/-- C8, amended to the code: the arrival cue is *not* suppressed in the
pass-through (or terminal) special modes — a surviving pass-through row
emits `arrival` at the downward crossing observed with `delta >= 0`, like
any other row. -/
theorem claim_C8_amended (th : Thresholds) (now : Int) (notice : String)
    (e : VisEntry) (hpass : e.raw.passThrough = true)
    (hterm : e.raw.terminalHere = false) (hpra : 0 < th.passRemoveAfter)
    (hd : 0 ≤ e.time - now)
    (hld : ∃ ld, e.lastDelta = some ld ∧ th.arrivalBefore < ld ∧
      e.time - now ≤ th.arrivalBefore)
    (hnp : e.playedArrival = false) :
    "arrival" ∈ (refreshEntry th now notice e).2.2 := by
  have hno : ¬ (e.time - now ≤ -th.passRemoveAfter) := by omega
  have hsurv : (refreshEntry th now notice e).1 =
      some ((statusAndCues th now notice e).1) := by
    unfold refreshEntry
    dsimp only
    simp [hterm, hpass, hno]
  rw [mem_events_iff, mem_cuesOf_arrival, fireArrival_iff]
  exact ⟨⟨_, hsurv⟩, hd, hld, hnp⟩

theorem claim_C8_amended_witness :
    c8Entry.raw.passThrough = true ∧ (0 : Int) < defaultTh.passRemoveAfter ∧
    (0 : Int) ≤ c8Entry.time - 1000 ∧
    "arrival" ∈ (refreshEntry defaultTh 1000 "" c8Entry).2.2 :=
  ⟨rfl, by decide, by decide,
   claim_C8_amended defaultTh 1000 "" c8Entry rfl rfl (by decide) (by decide)
     ⟨58, rfl, by decide, by decide⟩ rfl⟩

/-- C5: the approach/passed phases behave as claimed, but at the removal
tick the platform notice is *not* cleared: the removal check fires first
(with `continue`), so the clearing branch — whose guard
`delta <= -pass_remove_after_secs` coincides with the removal condition —
is unreachable, and the notice text survives the row's removal. -/
theorem claim_C5_bug :
    (runTicks defaultTh c5Board [35985]).notice = "3番線に列車が通過します" ∧
    (runTicks defaultTh c5Board [35985]).model.map (fun v => v.status) = ["接近"] ∧
    (runTicks defaultTh c5Board [35985, 36005]).notice = "3番線に列車が通過します" ∧
    (runTicks defaultTh c5Board [35985, 36005]).model.map (fun v => v.status) = ["通過"] ∧
    (runTicks defaultTh c5Board [35985, 36005, 36011]).model = [] ∧
    (runTicks defaultTh c5Board [35985, 36005, 36011]).notice =
      "3番線に列車が通過します" := by
  decide

/-! ### Loading error behaviour (C9) -/

/-- C9 as stated is false: a list element that is not a mapping makes
`set_departures` raise `AttributeError` at `item.get("time", ...)`
(main.py:515), aborting the whole load — the remaining well-formed record
is not loaded either. -/
theorem claim_C9_counterexample :
    setDepartures 0 [JVal.jint 5, JVal.jdict [("time", JVal.jstr "08:00")]]
        { allItems := [], model := [], notice := "" } =
      Except.error "AttributeError" := by
  rfl

lemma parseTimeJ_ok (now : Int) (v : JVal) (h : timeValOK v = true) :
    ∃ t, parseTimeJ now v = Except.ok t := by
  cases v with
  | jstr s =>
    have hb : 0 ≤ (parseHourMinute s).1 ∧ (parseHourMinute s).1 ≤ 23 ∧
        0 ≤ (parseHourMinute s).2 ∧ (parseHourMinute s).2 ≤ 59 :=
      of_decide_eq_true h
    cases hres : parseTimeJ now (JVal.jstr s) with
    | ok t => exact ⟨t, rfl⟩
    | error err =>
      unfold parseTimeJ parseTodayOrTomorrow at hres
      dsimp only at hres
      rw [if_pos hb] at hres
      exact Except.noConfusion hres
  | jnull => exact ⟨_, rfl⟩
  | jbool b => exact ⟨_, rfl⟩
  | jint n => exact ⟨_, rfl⟩
  | jlist xs => exact ⟨_, rfl⟩
  | jdict f => exact ⟨_, rfl⟩

lemma pyInt_delay_ok (dv : JVal) (h : delayValOK dv = true) :
    ∃ d, pyInt (if pyTruthy dv then dv else .jint 0) = Except.ok d ∧
      (pyTruthy dv = false → d = 0) := by
  cases dv with
  | jnull => exact ⟨0, rfl, fun _ => rfl⟩
  | jbool b =>
    cases b with
    | false => exact ⟨0, rfl, fun _ => rfl⟩
    | true => exact ⟨1, rfl, fun hc => Bool.noConfusion hc⟩
  | jint n =>
    by_cases hn : n = 0
    · subst hn
      exact ⟨0, rfl, fun _ => rfl⟩
    · refine ⟨n, ?_, ?_⟩
      · simp [pyTruthy, pyInt, hn]
      · intro hc
        simp [pyTruthy, hn] at hc
  | jstr s =>
    by_cases hs : s = ""
    · subst hs
      exact ⟨0, rfl, fun _ => rfl⟩
    · have hsome : (pyIntOfString s).isSome = true := by
        have h2 : s = "" ∨ (pyIntOfString s).isSome = true := by
          simpa [delayValOK] using h
        rcases h2 with h1 | h1
        · exact absurd h1 hs
        · exact h1
      obtain ⟨n, hn⟩ := Option.isSome_iff_exists.mp hsome
      refine ⟨n, ?_, ?_⟩
      · simp [pyTruthy, hs, pyInt, hn]
      · intro hc
        simp [pyTruthy, hs] at hc
  | jlist xs =>
    have hxs : xs.isEmpty = true := h
    refine ⟨0, ?_, fun _ => rfl⟩
    simp [pyTruthy, hxs, pyInt]
  | jdict f =>
    have hf : f.isEmpty = true := h
    refine ⟨0, ?_, fun _ => rfl⟩
    simp [pyTruthy, hf, pyInt]

lemma parseItem_ok_of_recordOK (now : Int) (v : JVal) (h : recordOK v = true) :
    ∃ it, parseItem now v = Except.ok it ∧
      (∀ f, v = .jdict f → pyTruthy (dget f "delay_secs" (.jint 0)) = false →
        it.raw.delaySecs = 0) := by
  cases v with
  | jnull => exact absurd h (by decide)
  | jbool b => exact absurd h (by simp [recordOK])
  | jint n => exact absurd h (by simp [recordOK])
  | jstr s => exact absurd h (by simp [recordOK])
  | jlist xs => exact absurd h (by simp [recordOK])
  | jdict f =>
    have h' : timeValOK (dget f "time" (.jstr "00:00")) = true ∧
        delayValOK (dget f "delay_secs" (.jint 0)) = true := by
      simpa [recordOK] using h
    obtain ⟨t, ht⟩ := parseTimeJ_ok now (dget f "time" (.jstr "00:00")) h'.1
    obtain ⟨d, hd, hd0⟩ := pyInt_delay_ok (dget f "delay_secs" (.jint 0)) h'.2
    refine ⟨{ raw := { passThrough := pyTruthy (dget f "pass_through" (.jbool false))
                     , terminalHere := (match dget f "type" (.jstr "") with
                         | .jstr s => pyStripEq s "回送"
                         | _ => false)
                     , delaySecs := d
                     , platform := (match dget f "platform" (.jstr "-") with
                         | .jstr s => s
                         | _ => "-") }
            , time := t + d, shown := false, idx := 0 }, ?_, ?_⟩
    · unfold parseItem
      simp only [pyGet, bind, Except.bind, ht, hd, pure, Except.pure]
    · intro f2 hf2 hfalsy
      injection hf2 with hf2
      subst hf2
      exact hd0 hfalsy

lemma mapM_parseItem_ok (now : Int) :
    ∀ (deps : List JVal), (∀ v ∈ deps, recordOK v = true) →
      ∃ l, deps.mapM (parseItem now) = Except.ok l := by
  intro deps
  induction deps with
  | nil => intro _; exact ⟨[], rfl⟩
  | cons v rest ih =>
    intro h
    obtain ⟨it, hit, _⟩ :=
      parseItem_ok_of_recordOK now v (h v (List.mem_cons_self v rest))
    obtain ⟨l, hl⟩ := ih (fun w hw => h w (List.mem_cons_of_mem v hw))
    refine ⟨it :: l, ?_⟩
    rw [List.mapM_cons, hit, hl]
    rfl

/-- C9, amended to the code: loading raises (aborting the whole load) when
a list element is not a mapping or its `delay_secs` is a truthy
non-numeric value, or its `time` string carries an out-of-range
hour/minute; when every element is a well-formed mapping, the load
succeeds, and a missing or falsy `delay_secs` (absent key, None, 0, "",
empty containers) is treated as delay 0. -/
theorem claim_C9_amended (now : Int) (deps : List JVal) (b : Board)
    (h : ∀ v ∈ deps, recordOK v = true) :
    (∃ b', setDepartures now deps b = Except.ok b') ∧
    (∀ f, JVal.jdict f ∈ deps →
      pyTruthy (dget f "delay_secs" (.jint 0)) = false →
      ∃ it, parseItem now (JVal.jdict f) = Except.ok it ∧
        it.raw.delaySecs = 0) := by
  constructor
  · obtain ⟨l, hl⟩ := mapM_parseItem_ok now deps h
    cases hres : setDepartures now deps b with
    | ok b2 => exact ⟨b2, rfl⟩
    | error err =>
      unfold setDepartures at hres
      rw [hl] at hres
      exact Except.noConfusion hres
  · intro f hf hfalsy
    obtain ⟨it, hit, h0⟩ := parseItem_ok_of_recordOK now (.jdict f) (h _ hf)
    exact ⟨it, hit, h0 f rfl hfalsy⟩

theorem claim_C9_amended_witness :
    (∀ v ∈ [JVal.jdict [("time", JVal.jstr "08:00")],
            JVal.jdict [("time", JVal.jstr "09:30"), ("delay_secs", JVal.jnull)]],
      recordOK v = true) ∧
    (∃ b', setDepartures 0
        [JVal.jdict [("time", JVal.jstr "08:00")],
         JVal.jdict [("time", JVal.jstr "09:30"), ("delay_secs", JVal.jnull)]]
        { allItems := [], model := [], notice := "" } = Except.ok b') ∧
    (∃ it, parseItem 0 (JVal.jdict [("time", JVal.jstr "08:00")]) = Except.ok it ∧
      it.raw.delaySecs = 0) := by
  have h : ∀ v ∈ [JVal.jdict [("time", JVal.jstr "08:00")],
      JVal.jdict [("time", JVal.jstr "09:30"), ("delay_secs", JVal.jnull)]],
      recordOK v = true := by decide
  refine ⟨h, (claim_C9_amended 0 _ _ h).1, ?_⟩
  exact (claim_C9_amended 0 _ { allItems := [], model := [], notice := "" } h).2
    [("time", JVal.jstr "08:00")] (List.mem_cons_self _ _) (by decide)

end LCDStation
